import Mathlib

/-!
Shallow embedding of the download-worker core of `src/src/main.rs`
(the iced subscription test app).

Conventions of the embedding:
- `rand::thread_rng().gen_range(lo..hi)` is modelled by `genRange lo hi seed`
  for an arbitrary seed, faithful to the documented contract of `gen_range`:
  the result lies in `[lo, hi)`.  Each step of the item state machine
  consumes one seed triple (total draw, chunk draw, delay draw).
- `f32` percentages are modelled as exact rationals.  Every numerator and
  denominator involved stays far below `2 ^ 24`, hence is exactly
  representable in `f32`; the claims proved here are exact values and order
  relations that `f32` rounding preserves at these magnitudes.
- the `tokio::select!` supervisor loop of `run` is modelled as a step
  function over an explicit input trace (`RunInput`): each input is one
  resolved select arm.
- bounded channels are modelled by their buffer contents (a list); an
  awaited `SinkExt::send` appends unconditionally (it waits for capacity and
  never discards for a full buffer), while `try_send` appends only below
  capacity and otherwise leaves the buffer unchanged.
-/

/-- Models `rand::Rng::gen_range(lo..hi)` from its documented contract:
a value in `[lo, hi)` determined by an arbitrary `seed`. -/
def genRange (lo hi seed : Nat) : Nat := lo + seed % (hi - lo)

/-- Mirrors `pub enum State` of `main.rs`: `Ready(String)`,
`Downloading { total: u64, downloaded: u64 }`, `Finished`.
The `u64` fields are modelled as `Nat`; every value reachable here stays
below `55_000`, so no wrap-around behaviour is reachable. -/
inductive State
  | ready (url : String)
  | downloading (total downloaded : Nat)
  | finished

deriving instance DecidableEq for State

/-- Mirrors `pub enum Progress` of `main.rs`; the `f32` percentage is kept
as an exact rational. -/
inductive Progress
  | started
  | advanced (percentage : ℚ)
  | finished

deriving instance DecidableEq for Progress

/-- The percentage computation of the advancing arm of `download`:
`(downloaded as f32 / total as f32) * 100.0`, as an exact rational. -/
def pctQ (total downloaded : Nat) : ℚ := ((downloaded : ℚ) / (total : ℚ)) * 100

/-- One step of `async fn download(id, state)`, with the drawn values
injected (randomness as a seam): `totalDraw` stands for the value of
`rng.gen_range(10_000..50_000)` used in the `Ready` arm and `chunkDraw` for
the value of `rng.gen_range(1_000..5_000)` used in the advancing
`Downloading` arm.  `none` models the `Finished` arm, which suspends forever
(`future::pending().await`) and never yields a pair. -/
def downloadStep {I : Type} (id : I) (state : State) (totalDraw chunkDraw : Nat) :
    Option ((I × Progress) × State) :=
  match state with
  | State.ready _ => some ((id, Progress.started), State.downloading totalDraw 0)
  | State.downloading total downloaded =>
      if downloaded ≤ total then
        some ((id, Progress.advanced (pctQ total (downloaded + chunkDraw))),
          State.downloading total (downloaded + chunkDraw))
      else
        some ((id, Progress.finished), State.finished)
  | State.finished => none

/-- `async fn download(id, state)` with its two `gen_range` calls applied to
the step's seed triple: `s.1` seeds the total draw, `s.2.1` the chunk draw
(`s.2.2` seeds the delay draw, see `downloadDelay`). -/
def download {I : Type} (id : I) (state : State) (s : Nat × Nat × Nat) :
    Option ((I × Progress) × State) :=
  downloadStep id state (genRange 10000 50000 s.1) (genRange 1000 5000 s.2.1)

/-- The duration (in milliseconds) passed to `tokio::time::sleep` during one
step of `download`: drawn by `rng.gen_range(100..500)` in the advancing
`Downloading` arm, and absent in every other arm. -/
def downloadDelay (state : State) (s : Nat × Nat × Nat) : Option Nat :=
  match state with
  | State.downloading total downloaded =>
      if downloaded ≤ total then some (genRange 100 500 s.2.2) else none
  | _ => none

/-- Repeated application of `downloadStep` with an explicit list of injected
draw pairs `(totalDraw, chunkDraw)`, one per step; returns the emitted
events and the final state.  A step that suspends forever (`none`) ends the
trace. -/
def downloadRunWith {I : Type} (id : I) :
    State → List (Nat × Nat) → List (I × Progress) × State
  | st, [] => ([], st)
  | st, d :: rest =>
      match downloadStep id st d.1 d.2 with
      | none => ([], st)
      | some (e, st') =>
          let r := downloadRunWith id st' rest
          (e :: r.1, r.2)

/-- Repeated application of `download`, one seed triple per step: the event
sequence of one work item, as produced by the `unfold` stream built in
`run`. -/
def downloadRun {I : Type} (id : I) :
    State → List (Nat × Nat × Nat) → List (I × Progress) × State
  | st, [] => ([], st)
  | st, s :: rest =>
      match download id st s with
      | none => ([], st)
      | some (e, st') =>
          let r := downloadRun id st' rest
          (e :: r.1, r.2)

/-- Capacity of the command channel: `mpsc::channel(32)` in `run`. -/
def commandChannelCapacity : Nat := 32

/-- Capacity of the event sink: `subscription::channel(id, 128, run)` in
`download_worker`. -/
def eventSinkCapacity : Nat := 128

/-- Mirrors `enum DownloaderMessage` of `main.rs`. -/
inductive DownloaderMessage (I : Type)
  | download (id : I) (url : String)

deriving instance DecidableEq for DownloaderMessage

/-- Mirrors `enum DownloaderEvent` of `main.rs`.  The `Initialized` variant
carries the `Downloader` handle in the source; the handle has no state of
its own in this embedding (the command-channel buffer is threaded
explicitly), so the payload is dropped here. -/
inductive DownloaderEvent (I : Type)
  | initialized
  | progress (id : I) (p : Progress)

deriving instance DecidableEq for DownloaderEvent

/-- Models `Downloader::download(&self, id, url)`: the effect of
`self.sender.try_send(DownloaderMessage::Download(id, url))` on the command
channel buffer `queue`.  `try_send` enqueues when the buffer is below
capacity and fails when it is full; the `let _ =` in the source discards the
failure, so a full buffer is left unchanged.  The Rust method returns `()`:
accordingly this function returns only the new buffer, no success
indication. -/
def Downloader.download {I : Type} (queue : List (DownloaderMessage I))
    (id : I) (url : String) : List (DownloaderMessage I) :=
  if queue.length < commandChannelCapacity then
    queue ++ [DownloaderMessage.download id url]
  else
    queue

/-- Models `sender.send(event).await` in `run`: `SinkExt::send` on the
bounded futures channel waits for capacity and then enqueues.  It never
discards an event because the buffer is full (the ignored error occurs only
when the receiver has been dropped, which ends the subscription). -/
def sinkSend {I : Type} (sink : List (DownloaderEvent I)) (e : DownloaderEvent I) :
    List (DownloaderEvent I) := sink ++ [e]

/-- Follows the spec's words for claim C5, for comparison with `sinkSend`:
a non-blocking send that is dropped silently when the buffer already holds
`cap` events. -/
def specTrySend {I : Type} (cap : Nat) (q : List (DownloaderEvent I))
    (e : DownloaderEvent I) : List (DownloaderEvent I) :=
  if q.length < cap then q ++ [e] else q

/-- The supervisor loop's state: the machines registered in the `SelectAll`
(each with its current `State`) and the sequence of events delivered to the
event sink so far. -/
structure RunState (I : Type) where
  machines : List (I × State)
  sink : List (DownloaderEvent I)

/-- One resolved arm of the `tokio::select!` in `run`: either the command
channel delivered a `Download(id, url)` message, or the `SelectAll` yielded
a ready `(id, progress)` pair. -/
inductive RunInput (I : Type)
  | cmd (id : I) (url : String)
  | ready (id : I) (p : Progress)

/-- One iteration of the supervisor loop of `run`: a command registers a
fresh machine in `Ready` state; a ready pair is forwarded to the event sink
as `Progress(id, event)` via the awaited send. -/
def runStep {I : Type} (s : RunState I) : RunInput I → RunState I
  | RunInput.cmd id url =>
      { s with machines := s.machines ++ [(id, State.ready url)] }
  | RunInput.ready i p =>
      { s with sink := sinkSend s.sink (DownloaderEvent.progress i p) }

/-- The prelude of `run`: no machines yet, and one `Initialized` event sent
through the event sink before the loop starts. -/
def runInit {I : Type} : RunState I :=
  { machines := [], sink := sinkSend [] DownloaderEvent.initialized }

/-- `async fn run(sender)`, driven by an explicit list of resolved select
arms. -/
def run {I : Type} (inputs : List (RunInput I)) : RunState I :=
  inputs.foldl runStep runInit

/-! ## Basic lemmas about the random draws and the percentage -/

theorem genRange_mem (lo hi seed : Nat) (h : lo < hi) :
    lo ≤ genRange lo hi seed ∧ genRange lo hi seed < hi := by
  have hmod : seed % (hi - lo) < hi - lo := Nat.mod_lt _ (by omega)
  unfold genRange
  omega

theorem pctQ_strictMono (total : Nat) (ht : 0 < total) {a b : Nat} (hab : a < b) :
    pctQ total a < pctQ total b := by
  unfold pctQ
  have htq : (0 : ℚ) < (total : ℚ) := by exact_mod_cast ht
  have habq : (a : ℚ) < (b : ℚ) := by exact_mod_cast hab
  have hdiv : (a : ℚ) / (total : ℚ) < (b : ℚ) / (total : ℚ) := by
    rw [div_lt_div_iff htq htq]
    exact mul_lt_mul_of_pos_right habq htq
  exact mul_lt_mul_of_pos_right hdiv (by norm_num)

theorem pctQ_gt_100 (total downloaded : Nat) (ht : 0 < total)
    (h : total < downloaded) : 100 < pctQ total downloaded := by
  unfold pctQ
  have htq : (0 : ℚ) < (total : ℚ) := by exact_mod_cast ht
  have hq : (total : ℚ) < (downloaded : ℚ) := by exact_mod_cast h
  have hdiv : (1 : ℚ) < (downloaded : ℚ) / (total : ℚ) :=
    (one_lt_div htq).mpr hq
  calc (100 : ℚ) = 1 * 100 := by norm_num
    _ < ((downloaded : ℚ) / (total : ℚ)) * 100 :=
        mul_lt_mul_of_pos_right hdiv (by norm_num)

/-! ## Basic lemmas about the machine trace -/

theorem downloadStep_eq_none {I : Type} (id : I) (st : State) (a b : Nat)
    (h : downloadStep id st a b = none) : st = State.finished := by
  cases st with
  | ready url => simp [downloadStep] at h
  | downloading total downloaded =>
      exfalso
      rcases le_or_lt downloaded total with hc | hc
      · simp [downloadStep, hc] at h
      · simp [downloadStep, Nat.not_le.mpr hc] at h
  | finished => rfl

theorem downloadRunWith_finished {I : Type} (id : I) (ds : List (Nat × Nat)) :
    downloadRunWith id State.finished ds = ([], State.finished) := by
  cases ds with
  | nil => rfl
  | cons d rest => rfl

theorem downloadRunWith_append {I : Type} (id : I) (st : State)
    (ds es : List (Nat × Nat)) :
    (downloadRunWith id st (ds ++ es)).1
      = (downloadRunWith id st ds).1
        ++ (downloadRunWith id (downloadRunWith id st ds).2 es).1 := by
  induction ds generalizing st with
  | nil => simp [downloadRunWith]
  | cons d rest ih =>
      rw [List.cons_append]
      cases hstep : downloadStep id st d.1 d.2 with
      | none =>
          have hfin : st = State.finished := downloadStep_eq_none id st _ _ hstep
          subst hfin
          simp [downloadRunWith_finished]
      | some r =>
          obtain ⟨e, st'⟩ := r
          simp only [downloadRunWith, hstep]
          rw [ih st', List.cons_append]

theorem downloadRun_eq_runWith {I : Type} (id : I) (st : State)
    (ss : List (Nat × Nat × Nat)) :
    downloadRun id st ss
      = downloadRunWith id st
          (ss.map fun s => (genRange 10000 50000 s.1, genRange 1000 5000 s.2.1)) := by
  induction ss generalizing st with
  | nil => rfl
  | cons s rest ih =>
      rw [List.map_cons]
      cases hstep : download id st s with
      | none =>
          have hfin : st = State.finished := downloadStep_eq_none id st _ _ hstep
          subst hfin
          rfl
      | some r =>
          obtain ⟨e, st'⟩ := r
          have hstep' : downloadStep id st (genRange 10000 50000 s.1)
              (genRange 1000 5000 s.2.1) = some (e, st') := hstep
          simp only [downloadRun, downloadRunWith, hstep, hstep']
          rw [ih st']

/-! ## Shape of the downloading phase

From a `Downloading{total, downloaded}` state, given one in-range chunk draw
per step and enough steps, the machine emits a strictly increasing run of
`Advanced` percentages followed by exactly one `Finished`, and parks in the
terminal state.  The two arithmetic bounds pin the number of `Advanced`
events: at most one step per 1000 downloaded (the minimum chunk), and the
run cannot stop while 4999 (the maximum chunk) per step could still be short
of `total`. -/
theorem downloading_shape {I : Type} (id : I) (total : Nat) (htotal : 0 < total) :
    ∀ (ds : List (Nat × Nat)) (downloaded : Nat),
      (∀ d ∈ ds, 1000 ≤ d.2 ∧ d.2 < 5000) →
      1 ≤ ds.length →
      total + 2000 ≤ downloaded + 1000 * ds.length →
      ∃ ps : List ℚ,
        downloadRunWith id (State.downloading total downloaded) ds
          = (ps.map (fun p => (id, Progress.advanced p)) ++ [(id, Progress.finished)],
             State.finished) ∧
        List.Chain' (fun a b => a < b) ps ∧
        (∀ p ∈ ps, pctQ total downloaded < p) ∧
        (total < downloaded → ps = []) ∧
        (downloaded ≤ total → 1000 * ps.length ≤ (total - downloaded) + 1000) ∧
        (downloaded ≤ total → total < downloaded + 4999 * ps.length) := by
  intro ds
  induction ds with
  | nil =>
      intro downloaded _ hlen _
      simp at hlen
  | cons d rest ih =>
      intro downloaded hds _ hbound
      rcases lt_or_le total downloaded with hgt | hle
      · -- the chunk overshot on an earlier step: emit `Finished` and park
        refine ⟨[], ?_, ?_, ?_, ?_, ?_, ?_⟩
        · simp only [downloadRunWith, downloadStep, if_neg (Nat.not_le.mpr hgt)]
          simp [downloadRunWith_finished]
        · simp
        · simp
        · intro _; rfl
        · intro h; exact absurd h (Nat.not_le.mpr hgt)
        · intro h; exact absurd h (Nat.not_le.mpr hgt)
      · -- still downloading: advance by the drawn chunk
        have hc := hds d (List.mem_cons_self d rest)
        have hrest1 : 1 ≤ rest.length := by
          simp only [List.length_cons] at hbound
          omega
        have hbound' : total + 2000 ≤ (downloaded + d.2) + 1000 * rest.length := by
          simp only [List.length_cons] at hbound
          omega
        obtain ⟨ps', h1, h2, h3, h4, h5, h6⟩ :=
          ih (downloaded + d.2) (fun x hx => hds x (List.mem_cons_of_mem d hx))
            hrest1 hbound'
        have hstep : downloadStep id (State.downloading total downloaded) d.1 d.2
            = some ((id, Progress.advanced (pctQ total (downloaded + d.2))),
                State.downloading total (downloaded + d.2)) := by
          simp [downloadStep, hle]
        have hmono : pctQ total downloaded < pctQ total (downloaded + d.2) :=
          pctQ_strictMono total htotal (by omega)
        refine ⟨pctQ total (downloaded + d.2) :: ps', ?_, ?_, ?_, ?_, ?_, ?_⟩
        · simp only [downloadRunWith, hstep, h1, List.map_cons, List.cons_append]
        · rw [List.chain'_cons']
          refine ⟨?_, h2⟩
          intro b hb
          exact h3 b (List.mem_of_mem_head? hb)
        · intro p hp
          rcases List.mem_cons.mp hp with hp | hp
          · rw [hp]; exact hmono
          · exact lt_trans hmono (h3 p hp)
        · intro h; exact absurd hle (Nat.not_le.mpr h)
        · intro _
          rcases le_or_lt (downloaded + d.2) total with h' | h'
          · have := h5 h'
            simp only [List.length_cons]
            omega
          · have hnil := h4 h'
            simp only [hnil, List.length_cons, List.length_nil]
            omega
        · intro _
          rcases le_or_lt (downloaded + d.2) total with h' | h'
          · have := h6 h'
            simp only [List.length_cons]
            omega
          · have hnil := h4 h'
            simp only [hnil, List.length_cons, List.length_nil]
            omega

/-- The full event sequence of one work item started in `Ready`: one
`Started`, a strictly increasing nonempty run of `Advanced`, one `Finished`,
and silence afterwards.  53 seed triples always suffice (1 start step, at
most 50 advancing steps, 1 finishing step), and any further seeds add no
events. -/
theorem ready_shape {I : Type} (id : I) (url : String)
    (ss : List (Nat × Nat × Nat)) (h : 53 ≤ ss.length) :
    ∃ (T : Nat) (ps : List ℚ),
      10000 ≤ T ∧ T < 50000 ∧
      (downloadRun id (State.ready url) ss).1
        = (id, Progress.started)
            :: (ps.map fun p => (id, Progress.advanced p)) ++ [(id, Progress.finished)] ∧
      (downloadRun id (State.ready url) ss).2 = State.finished ∧
      List.Chain' (fun a b => a < b) ps ∧
      1000 * ps.length ≤ T + 1000 ∧
      T < 4999 * ps.length ∧
      (∀ ss' : List (Nat × Nat × Nat),
        (downloadRun id (State.ready url) (ss ++ ss')).1
          = (downloadRun id (State.ready url) ss).1) := by
  cases ss with
  | nil => simp at h
  | cons s rest =>
      have hlen : 52 ≤ rest.length := by
        simp only [List.length_cons] at h
        omega
      have hT := genRange_mem 10000 50000 s.1 (by norm_num)
      refine ⟨genRange 10000 50000 s.1, ?_⟩
      have hfirst : ∀ es : List (Nat × Nat × Nat),
          downloadRun id (State.ready url) (s :: es)
            = ((id, Progress.started)
                :: (downloadRun id (State.downloading (genRange 10000 50000 s.1) 0) es).1,
               (downloadRun id (State.downloading (genRange 10000 50000 s.1) 0) es).2) :=
        fun es => rfl
      have hdraws : ∀ d ∈ rest.map
          (fun x => (genRange 10000 50000 x.1, genRange 1000 5000 x.2.1)),
          1000 ≤ d.2 ∧ d.2 < 5000 := by
        intro d hd
        rcases List.mem_map.mp hd with ⟨x, _, hx⟩
        rw [← hx]
        exact genRange_mem 1000 5000 x.2.1 (by norm_num)
      have hlenmap : 1 ≤ (rest.map
          (fun x => (genRange 10000 50000 x.1, genRange 1000 5000 x.2.1))).length := by
        rw [List.length_map]
        omega
      have hboundmap : genRange 10000 50000 s.1 + 2000
          ≤ 0 + 1000 * (rest.map
              (fun x => (genRange 10000 50000 x.1, genRange 1000 5000 x.2.1))).length := by
        rw [List.length_map]
        omega
      obtain ⟨ps, h1, h2, h3, _, h5, h6⟩ :=
        downloading_shape id (genRange 10000 50000 s.1) (by omega)
          (rest.map (fun x => (genRange 10000 50000 x.1, genRange 1000 5000 x.2.1)))
          0 hdraws hlenmap hboundmap
      refine ⟨ps, hT.1, hT.2, ?_, ?_, h2, ?_, ?_, ?_⟩
      · rw [hfirst rest, downloadRun_eq_runWith, h1]
        rfl
      · rw [hfirst rest]
        simp only [downloadRun_eq_runWith, h1]
      · have := h5 (Nat.zero_le _)
        omega
      · have := h6 (Nat.zero_le _)
        omega
      · intro ss'
        rw [List.cons_append, hfirst rest, hfirst (rest ++ ss')]
        simp only [downloadRun_eq_runWith, List.map_append]
        rw [downloadRunWith_append, h1]
        simp [downloadRunWith_finished]

/-- Fixed descriptor used by concrete witnesses. -/
def urlA : String := ""

/-! ## Claim theorems -/

/-- C1: for every work item, the sequence of progress events produced by
repeatedly applying the step function `download` from the initial `Ready`
state is exactly one `Started`, followed by one or more `Advanced` with
strictly increasing percentages, followed by exactly one `Finished`, after
which no further event is emitted for that item (extending the run with any
further seeds adds no events). -/
theorem download_event_sequence {I : Type} (id : I) (url : String)
    (ss : List (Nat × Nat × Nat)) (h : 53 ≤ ss.length) :
    ∃ ps : List ℚ,
      ps ≠ [] ∧
      List.Chain' (fun a b => a < b) ps ∧
      (downloadRun id (State.ready url) ss).1
        = (id, Progress.started)
            :: (ps.map fun p => (id, Progress.advanced p)) ++ [(id, Progress.finished)] ∧
      (∀ ss' : List (Nat × Nat × Nat),
        (downloadRun id (State.ready url) (ss ++ ss')).1
          = (downloadRun id (State.ready url) ss).1) := by
  obtain ⟨T, ps, hT1, _, htrace, _, hchain, _, hlb, hstab⟩ := ready_shape id url ss h
  refine ⟨ps, ?_, hchain, htrace, hstab⟩
  intro hnil
  rw [hnil] at hlb
  simp only [List.length_nil, Nat.mul_zero] at hlb
  omega

/-- C2: from `Downloading{total, downloaded}` with `downloaded ≤ total`, one
step of `download` draws `chunk_size` in `[1000, 5000)` and `delay_ms` in
`[100, 500)`, sets `downloaded' = downloaded + chunk_size`, emits
`Advanced(percentage)` with `percentage = (downloaded' / total) * 100`
(unclamped), and transitions to `Downloading{total, downloaded'}`. -/
theorem download_downloading_step {I : Type} (id : I) (total downloaded : Nat)
    (s : Nat × Nat × Nat) (h : downloaded ≤ total) :
    download id (State.downloading total downloaded) s
      = some ((id, Progress.advanced (pctQ total (downloaded + genRange 1000 5000 s.2.1))),
          State.downloading total (downloaded + genRange 1000 5000 s.2.1)) ∧
    1000 ≤ genRange 1000 5000 s.2.1 ∧ genRange 1000 5000 s.2.1 < 5000 ∧
    downloadDelay (State.downloading total downloaded) s
      = some (genRange 100 500 s.2.2) ∧
    100 ≤ genRange 100 500 s.2.2 ∧ genRange 100 500 s.2.2 < 500 ∧
    pctQ total (downloaded + genRange 1000 5000 s.2.1)
      = (((downloaded + genRange 1000 5000 s.2.1 : Nat) : ℚ) / ((total : Nat) : ℚ)) * 100 := by
  have hchunk := genRange_mem 1000 5000 s.2.1 (by norm_num)
  have hdelay := genRange_mem 100 500 s.2.2 (by norm_num)
  refine ⟨?_, hchunk.1, hchunk.2, ?_, hdelay.1, hdelay.2, rfl⟩
  · simp [download, downloadStep, h]
  · simp [downloadDelay, h]

/-- C3: from `Ready{descriptor}`, one step of `download` draws `total` in
`[10000, 50000)`, emits `Started`, and transitions to
`Downloading{total, downloaded: 0}`. -/
theorem download_ready_step {I : Type} (id : I) (url : String) (s : Nat × Nat × Nat) :
    download id (State.ready url) s
      = some ((id, Progress.started), State.downloading (genRange 10000 50000 s.1) 0) ∧
    10000 ≤ genRange 10000 50000 s.1 ∧ genRange 10000 50000 s.1 < 50000 :=
  ⟨rfl, genRange_mem 10000 50000 s.1 (by norm_num)⟩

/-- C4: from `Downloading{total, downloaded}` with `downloaded > total`, one
step of `download` emits `Finished` and transitions to the terminal
`Finished` state; from `Finished` the machine suspends forever and never
produces another event. -/
theorem download_finish_terminal {I : Type} (id : I) (total downloaded : Nat)
    (s : Nat × Nat × Nat) (h : total < downloaded) :
    download id (State.downloading total downloaded) s
      = some ((id, Progress.finished), State.finished) ∧
    (∀ s' : Nat × Nat × Nat, download id State.finished s' = none) ∧
    (∀ ss : List (Nat × Nat × Nat),
      downloadRun id State.finished ss = ([], State.finished)) := by
  refine ⟨?_, fun s' => rfl, fun ss => ?_⟩
  · simp [download, downloadStep, Nat.not_le.mpr h]
  · cases ss with
    | nil => rfl
    | cons a b => rfl

/-- C5, corrected: when the multiplexer yields a ready pair, the supervisor
loop forwards `Progress(id, event)` to the event sink (capacity 128) via an
awaited `SinkExt::send`, which waits for capacity and always appends the
event; nothing is dropped for a full buffer. -/
theorem run_forward_awaited_send {I : Type} (s : RunState I) (i : I) (p : Progress) :
    eventSinkCapacity = 128 ∧
    (runStep s (RunInput.ready i p)).sink = s.sink ++ [DownloaderEvent.progress i p] ∧
    (runStep s (RunInput.ready i p)).machines = s.machines :=
  ⟨rfl, rfl, rfl⟩

/-- C5, counterexample to the claim as stated: with the event sink buffer
already holding 128 events, forwarding a ready pair does not behave as the
claimed drop-on-full non-blocking send: the code's awaited send still
appends the event. -/
theorem run_forward_drop_counterexample :
    (runStep { machines := [], sink := List.replicate 128 DownloaderEvent.initialized }
        (RunInput.ready (0 : Nat) Progress.started)).sink
      ≠ specTrySend eventSinkCapacity
          (List.replicate 128 DownloaderEvent.initialized)
          (DownloaderEvent.progress 0 Progress.started) := by
  intro hEq
  have hlen := congrArg List.length hEq
  simp [runStep, sinkSend, specTrySend, eventSinkCapacity] at hlen

/-- C6: `Downloader::download(id, descriptor)` enqueues a start request on
the command channel of bounded capacity 32 via a single non-blocking
`try_send`; a full channel leaves the buffer unchanged (the send is dropped
silently), and the function returns only the buffer, no success
indication. -/
theorem downloader_submit_try_send {I : Type} (queue : List (DownloaderMessage I))
    (id : I) (url : String) :
    commandChannelCapacity = 32 ∧
    (queue.length < 32 →
      Downloader.download queue id url = queue ++ [DownloaderMessage.download id url]) ∧
    (32 ≤ queue.length → Downloader.download queue id url = queue) := by
  refine ⟨rfl, fun h => ?_, fun h => ?_⟩
  · simp [Downloader.download, commandChannelCapacity, h]
  · simp [Downloader.download, commandChannelCapacity, Nat.not_lt.mpr h]

/-- Helper for C7: every event the supervisor loop itself appends to the
sink is a `Progress` event. -/
theorem run_sink_progress_aux {I : Type} (inputs : List (RunInput I)) (s : RunState I) :
    ∃ t, (List.foldl runStep s inputs).sink = s.sink ++ t ∧
      ∀ e ∈ t, ∃ i p, e = DownloaderEvent.progress i p := by
  induction inputs generalizing s with
  | nil => exact ⟨[], by simp, by simp⟩
  | cons inp rest ih =>
      rw [List.foldl_cons]
      obtain ⟨t, ht, hall⟩ := ih (runStep s inp)
      cases inp with
      | cmd id url => exact ⟨t, ht, hall⟩
      | ready i p =>
          refine ⟨DownloaderEvent.progress i p :: t, ?_, ?_⟩
          · rw [ht]
            simp [runStep, sinkSend]
          · intro e he
            rcases List.mem_cons.mp he with he | he
            · exact ⟨i, p, he⟩
            · exact hall e he

/-- C7: the worker emits exactly one `Initialized` event on the event sink,
and it precedes every `Progress` event: for any sequence of resolved select
arms, the sink trace is `Initialized` followed only by `Progress` events. -/
theorem run_initialized_precedes_progress {I : Type} (inputs : List (RunInput I)) :
    ∃ t, (run inputs).sink = DownloaderEvent.initialized :: t ∧
      ∀ e ∈ t, ∃ i p, e = DownloaderEvent.progress i p := by
  obtain ⟨t, ht, hall⟩ := run_sink_progress_aux inputs (runInit : RunState I)
  exact ⟨t, ht, hall⟩

/-- C8: with `total = 10000` and every injected chunk draw equal to `5000`,
the item emits `Advanced(50)`, `Advanced(100)`, then `Advanced(150)` at
`downloaded = 15000`, and the next step detects `downloaded > total` and
emits `Finished`; in general the `Advanced` percentage exceeds 100 whenever
`downloaded` overshoots `total`. -/
theorem download_overshoot_boundary :
    (downloadRunWith (0 : Nat) (State.downloading 10000 0)
        [(0, 5000), (0, 5000), (0, 5000), (0, 0)]).1
      = [((0 : Nat), Progress.advanced 50), (0, Progress.advanced 100),
         (0, Progress.advanced 150), (0, Progress.finished)] ∧
    (downloadRunWith (0 : Nat) (State.downloading 10000 0)
        [(0, 5000), (0, 5000), (0, 5000), (0, 0)]).2 = State.finished ∧
    ∀ total downloaded : Nat, 0 < total → total < downloaded →
      100 < pctQ total downloaded := by
  refine ⟨?_, ?_, fun total downloaded ht h => pctQ_gt_100 total downloaded ht h⟩
  · norm_num [downloadRunWith, downloadStep, pctQ]
  · norm_num [downloadRunWith, downloadStep, pctQ]

/-- C9: for every sequence of seeds, the machine started in `Ready` reaches
the `Finished` state after finitely many steps (53 seed triples always
suffice), emitting at least 3 and at most 50 `Advanced` events before
`Finished`. -/
theorem download_advanced_count {I : Type} (id : I) (url : String)
    (ss : List (Nat × Nat × Nat)) (h : 53 ≤ ss.length) :
    ∃ ps : List ℚ,
      (downloadRun id (State.ready url) ss).1
        = (id, Progress.started)
            :: (ps.map fun p => (id, Progress.advanced p)) ++ [(id, Progress.finished)] ∧
      (downloadRun id (State.ready url) ss).2 = State.finished ∧
      3 ≤ ps.length ∧ ps.length ≤ 50 := by
  obtain ⟨T, ps, hT1, hT2, htrace, hfinal, _, hub, hlb, _⟩ := ready_shape id url ss h
  exact ⟨ps, htrace, hfinal, by omega, by omega⟩

/-- C10: the descriptor string has no influence on the emitted events: two
runs that differ only in the url but use the same id and the same seeds
produce identical event sequences. -/
theorem download_url_noninterference {I : Type} (id : I) (url1 url2 : String)
    (ss : List (Nat × Nat × Nat)) :
    (downloadRun id (State.ready url1) ss).1
      = (downloadRun id (State.ready url2) ss).1 := by
  cases ss with
  | nil => rfl
  | cons s rest => rfl

/-! ## Concrete witnesses for the hypothesis-bearing claim theorems -/

theorem download_event_sequence_witness :
    53 ≤ (List.replicate 53 ((0, 0, 0) : Nat × Nat × Nat)).length ∧
    ∃ ps : List ℚ,
      ps ≠ [] ∧
      List.Chain' (fun a b => a < b) ps ∧
      (downloadRun (0 : Nat) (State.ready urlA)
          (List.replicate 53 ((0, 0, 0) : Nat × Nat × Nat))).1
        = ((0 : Nat), Progress.started)
            :: (ps.map fun p => ((0 : Nat), Progress.advanced p))
            ++ [((0 : Nat), Progress.finished)] ∧
      (∀ ss' : List (Nat × Nat × Nat),
        (downloadRun (0 : Nat) (State.ready urlA)
            (List.replicate 53 ((0, 0, 0) : Nat × Nat × Nat) ++ ss')).1
          = (downloadRun (0 : Nat) (State.ready urlA)
              (List.replicate 53 ((0, 0, 0) : Nat × Nat × Nat))).1) :=
  ⟨by simp, download_event_sequence 0 urlA (List.replicate 53 ((0, 0, 0) : Nat × Nat × Nat))
    (by simp)⟩

theorem download_downloading_step_witness :
    (0 : Nat) ≤ 10000 ∧
    (download (0 : Nat) (State.downloading 10000 0) ((0, 0, 0) : Nat × Nat × Nat)
      = some (((0 : Nat), Progress.advanced (pctQ 10000 (0 + genRange 1000 5000 0))),
          State.downloading 10000 (0 + genRange 1000 5000 0)) ∧
    1000 ≤ genRange 1000 5000 0 ∧ genRange 1000 5000 0 < 5000 ∧
    downloadDelay (State.downloading 10000 0) ((0, 0, 0) : Nat × Nat × Nat)
      = some (genRange 100 500 0) ∧
    100 ≤ genRange 100 500 0 ∧ genRange 100 500 0 < 500 ∧
    pctQ 10000 (0 + genRange 1000 5000 0)
      = (((0 + genRange 1000 5000 0 : Nat) : ℚ) / (((10000 : Nat) : Nat) : ℚ)) * 100) :=
  ⟨by norm_num,
   download_downloading_step 0 10000 0 ((0, 0, 0) : Nat × Nat × Nat) (by norm_num)⟩

theorem download_finish_terminal_witness :
    (10000 : Nat) < 15000 ∧
    (download (0 : Nat) (State.downloading 10000 15000) ((0, 0, 0) : Nat × Nat × Nat)
        = some (((0 : Nat), Progress.finished), State.finished) ∧
    (∀ s' : Nat × Nat × Nat, download (0 : Nat) State.finished s' = none) ∧
    (∀ ss : List (Nat × Nat × Nat),
      downloadRun (0 : Nat) State.finished ss = ([], State.finished))) :=
  ⟨by norm_num,
   download_finish_terminal 0 10000 15000 ((0, 0, 0) : Nat × Nat × Nat) (by norm_num)⟩

theorem downloader_submit_try_send_witness :
    Downloader.download ([] : List (DownloaderMessage Nat)) 0 urlA
      = [DownloaderMessage.download 0 urlA] ∧
    Downloader.download (List.replicate 32 (DownloaderMessage.download (0 : Nat) urlA)) 0 urlA
      = List.replicate 32 (DownloaderMessage.download (0 : Nat) urlA) :=
  ⟨(downloader_submit_try_send [] 0 urlA).2.1 (by simp),
   (downloader_submit_try_send
      (List.replicate 32 (DownloaderMessage.download (0 : Nat) urlA)) 0 urlA).2.2 (by simp)⟩

theorem download_overshoot_boundary_witness : 100 < pctQ 10000 15000 :=
  download_overshoot_boundary.2.2 10000 15000 (by norm_num) (by norm_num)

theorem download_advanced_count_witness :
    53 ≤ (List.replicate 53 ((0, 0, 0) : Nat × Nat × Nat)).length ∧
    ∃ ps : List ℚ,
      (downloadRun (0 : Nat) (State.ready urlA)
          (List.replicate 53 ((0, 0, 0) : Nat × Nat × Nat))).1
        = ((0 : Nat), Progress.started)
            :: (ps.map fun p => ((0 : Nat), Progress.advanced p))
            ++ [((0 : Nat), Progress.finished)] ∧
      (downloadRun (0 : Nat) (State.ready urlA)
          (List.replicate 53 ((0, 0, 0) : Nat × Nat × Nat))).2 = State.finished ∧
      3 ≤ ps.length ∧ ps.length ≤ 50 :=
  ⟨by simp, download_advanced_count 0 urlA (List.replicate 53 ((0, 0, 0) : Nat × Nat × Nat))
    (by simp)⟩
